import Mathlib

/-!
Shallow embedding of `scripts/fetch_data.py` (Boston 311 fetch/reconcile
script) and proofs about its reconciliation algorithm.

Python data shapes are modelled as follows:
* a fetched JSON record (an entry of `new_records`) is an association list
  from field names to JSON scalars, where a scalar is `Option String`
  (`none` models JSON `null`, `some s` a string value); a key that is absent
  from the object is simply absent from the association list;
* a CSV row (an entry of `existing_rows`, produced by `csv.DictReader`) is an
  association list from field names to strings;
* `set` of case ids is modelled as a `List String` used only through
  membership;
* the Python `dict` `new_by_id` is modelled by its lookup function (last
  insertion wins, as in a Python dict).
-/

/-- A JSON scalar value: `none` is `null`, `some s` a string. -/
abbrev JVal := Option String

/-- A fetched record: JSON object as an association list (absent key = no entry). -/
abbrev Rec := List (String × JVal)

/-- A CSV row as produced by `csv.DictReader`: field name to string value. -/
abbrev Row := List (String × String)

/-- The constant `PAGE_SIZE = 1000` (line 18 of `fetch_data.py`). -/
def PAGE_SIZE : Nat := 1000

/-- The constant `FIELDS` (lines 24-51 of `fetch_data.py`): the fixed, ordered
field set of the snapshot. -/
def FIELDS : List String :=
  ["case_id", "open_date", "close_date", "target_close_date", "case_topic",
   "service_name", "assigned_department", "assigned_team", "case_status",
   "closure_reason", "closure_comments", "on_time", "report_source",
   "full_address", "street_number", "street_name", "zip_code", "neighborhood",
   "public_works_district", "city_council_district", "fire_district",
   "police_district", "ward", "precinct", "longitude", "latitude"]

/-- Python `row.get(k, d)` on a CSV row (string-valued dict). -/
def getStr (row : Row) (k d : String) : String :=
  match row with
  | [] => d
  | (k', v) :: rest => if k' = k then v else getStr rest k d

/-- Python `row.get(k, "")` on a CSV row. -/
def rowGet (row : Row) (k : String) : String :=
  getStr row k ""

/-- Python `r.get(k)` on a JSON record: `none` when the key is absent,
`some v` when present (where `v` may itself be JSON `null`). -/
def getVal (r : Rec) (k : String) : Option JVal :=
  match r with
  | [] => none
  | (k', v) :: rest => if k' = k then some v else getVal rest k

/-- Python `(r.get(k) or "")` on a JSON record: the empty string when the key
is absent, `null`, or the empty string; the string value otherwise.  This is
the per-field normalization used at lines 180, 195 and 248. -/
def pyGetOr (r : Rec) (k : String) : String :=
  match getVal r k with
  | some (some s) => s
  | _ => ""

/-- Python `r.get("case_id", "")` on a JSON record: the identity-key lookup
used at lines 167 and 240.  `some ""` when the key is absent, `none` when the
value is JSON `null`, `some s` when it is the string `s`. -/
def caseId (r : Rec) : Option String :=
  match getVal r "case_id" with
  | none => some ""
  | some v => v

/-- The dict comprehension `{k: (fresh.get(k) or "") for k in FIELDS}`
(lines 180 and 248): a fetched record normalized to the fixed field set. -/
def normalizeRec (r : Rec) : Row :=
  FIELDS.map (fun k => (k, pyGetOr r k))

/-- Membership of a string in a list of strings (Python `in` on the id set). -/
def memStr : List String → String → Bool
  | [], _ => false
  | c :: rest, k => if c = k then true else memStr rest k

/-- Python `cid in existing_ids` where `cid = r.get("case_id", "")` may be
`None`: `None` is never a member of a set of strings. -/
def inIds (ids : List String) (cid : Option String) : Bool :=
  match cid with
  | some c => memStr ids c
  | none => false

/-- The identity-key set built by `read_existing_csv` (line 150):
`case_ids.add(row.get("case_id", ""))` for every row.  Modelled as a list
used only through membership (a Python `set` is membership-equivalent). -/
def existing_ids (rows : List Row) : List String :=
  rows.map (fun row => rowGet row "case_id")

/-- Lookup in the dict `new_by_id` built at lines 165-169 of
`update_existing_rows`: records are inserted keyed by their `case_id` when
that id is in `existing_ids`, later insertions overwriting earlier ones, so
the value found under `cid` is the last record of `new_records` whose
`case_id` is `cid` (provided `cid` is in `existing_ids`). -/
def new_by_id (new_records : List Rec) (ids : List String) (cid : String) : Option Rec :=
  if memStr ids cid then
    new_records.reverse.find? (fun r => decide (caseId r = some cid))
  else none

/-- Python `if not new_by_id` (line 171): the dict is empty exactly when no
fetched record has a `case_id` belonging to `existing_ids`. -/
def no_updates (new_records : List Rec) (ids : List String) : Bool :=
  new_records.all (fun r => !(inIds ids (caseId r)))

/-- The per-row body of the update loop at lines 175-181: a row whose
`case_id` has an entry in `new_by_id` is replaced by the normalized fresh
record; other rows are left unchanged. -/
def updFn (new_records : List Rec) (ids : List String) (row : Row) : Row :=
  match new_by_id new_records ids (rowGet row "case_id") with
  | some fresh => normalizeRec fresh
  | none => row

/-- The function `update_existing_rows` (lines 159-184): build `new_by_id`,
return the rows unchanged when it is empty, otherwise replace every row whose
`case_id` is a key of `new_by_id` by the corresponding normalized fresh
record. -/
def update_existing_rows (existing_rows : List Row) (new_records : List Rec)
    (ids : List String) : List Row :=
  if no_updates new_records ids then existing_rows
  else existing_rows.map (updFn new_records ids)

/-- The list comprehension `truly_new` at line 240: fetched records whose
`case_id` is not in `existing_ids`. -/
def truly_new (new_records : List Rec) (ids : List String) : List Rec :=
  new_records.filter (fun r => !(inIds ids (caseId r)))

/-- The sort key `lambda r: r.get("open_date", "")` at line 251. -/
def sortKey (row : Row) : String := rowGet row "open_date"

/-- Lexicographic comparison of character lists by code point: the order
Python uses on `str`. -/
def lexLe : List Char → List Char → Bool
  | [], _ => true
  | _ :: _, [] => false
  | a :: as, b :: bs =>
    decide (a.toNat < b.toNat) || (decide (a.toNat = b.toNat) && lexLe as bs)

/-- Python `s <= t` on strings (code-point lexicographic). -/
def strLe (s t : String) : Bool := lexLe s.data t.data

/-- The comparison used by `all_rows.sort(key=lambda r: r.get("open_date", ""))`
at line 251: Python's sort is stable and ascending on the key. -/
def rowLe (a b : Row) : Bool := strLe (sortKey a) (sortKey b)

/-- The unsorted merge result of lines 244-248 of `main`:
`existing_rows` (updated in place when non-empty, exactly as
`if existing_rows: existing_rows = update_existing_rows(...)`) followed by
the normalized truly-new records. -/
def pre_sort_rows (existing_rows : List Row) (new_records : List Rec)
    (ids : List String) : List Row :=
  (if existing_rows.isEmpty then existing_rows
   else update_existing_rows existing_rows new_records ids)
    ++ (truly_new new_records ids).map normalizeRec

/-- The reconciliation output of `main` lines 239-251: merge then stable sort
ascending by `open_date` (Python `list.sort` is a stable sort, modelled by
`List.mergeSort`, which is stable). -/
def reconcile (existing_rows : List Row) (new_records : List Rec)
    (ids : List String) : List Row :=
  (pre_sort_rows existing_rows new_records ids).mergeSort rowLe

/-- Observable outcome of one run of `main` (lines 216-257): exit status,
whether a diagnostic was printed to stderr, whether `write_csv` ran, whether
`write_metadata` ran, the snapshot rows on disk after the run, and the
reported count of newly appended records. -/
structure RunOutcome where
  exitCode : Nat
  errMessage : Bool
  wroteCsv : Bool
  wroteMeta : Bool
  rows : List Row
  newCount : Nat
deriving Repr, DecidableEq

/-- The control flow of `main` (lines 216-257) after the fetch, as a function
of the rows read from the existing CSV and the records returned by the fetch:
* both empty: print to stderr and `sys.exit(1)`, nothing written (lines
  230-232);
* no fresh records: write only the metadata and return, leaving the CSV rows
  on disk untouched (lines 234-237);
* otherwise: reconcile, `write_csv`, `write_metadata` (lines 239-255). -/
def mainRun (existing_rows : List Row) (new_records : List Rec) : RunOutcome :=
  if new_records.isEmpty && existing_rows.isEmpty then
    ⟨1, true, false, false, existing_rows, 0⟩
  else if new_records.isEmpty then
    ⟨0, false, false, true, existing_rows, 0⟩
  else
    ⟨0, false, true, true,
      reconcile existing_rows new_records (existing_ids existing_rows),
      (truly_new new_records (existing_ids existing_rows)).length⟩

/-- One page of `fetch_page` (lines 54-79) against an abstract dataset held by
the API: the slice of length `PAGE_SIZE` starting at `offset` (the API also
reports `total = dataset.length`). -/
def fetch_page_records (dataset : List Rec) (offset : Nat) : List Rec :=
  (dataset.drop offset).take PAGE_SIZE

/-- The full-pagination loop of `fetch_records_after` (lines 117-134): fetch
pages of `PAGE_SIZE` at increasing offsets, stopping when a page is short or
the accumulated count (which equals `offset + page length` along the loop)
reaches the reported total. -/
def fetch_all_pages (dataset : List Rec) (offset : Nat) : List Rec :=
  if (fetch_page_records dataset offset).length < PAGE_SIZE
      ∨ dataset.length ≤ offset + (fetch_page_records dataset offset).length then
    fetch_page_records dataset offset
  else
    fetch_page_records dataset offset ++ fetch_all_pages dataset (offset + PAGE_SIZE)
termination_by dataset.length - offset
decreasing_by
  simp only [fetch_page_records, List.length_take, List.length_drop, PAGE_SIZE] at *
  omega

/-- The function `fetch_records_after` (lines 82-134).  The network is
abstracted by two oracles: `sql_response` is the outcome of the single
filtered SQL query (`none` models a transport error or timeout, i.e. the
`except` branch; `some (success, records)` a JSON reply with its success
flag), and `dataset` is the full dataset the pagination endpoint serves.
With a watermark present, a successful SQL reply returns its records;
a failed or erroring reply falls through to the full pagination fetch,
exactly as in the source (lines 101-113). -/
def fetch_records_after (last_date : Option String)
    (sql_response : Option (Bool × List Rec)) (dataset : List Rec) : List Rec :=
  match last_date with
  | some _ =>
    match sql_response with
    | some (true, records) => records
    | some (false, _) => fetch_all_pages dataset 0
    | none => fetch_all_pages dataset 0
  | none => fetch_all_pages dataset 0

/-! ### Basic lemmas about the embedded operations -/

theorem memStr_iff (l : List String) (k : String) : memStr l k = true ↔ k ∈ l := by
  induction l with
  | nil => simp [memStr]
  | cons c rest ih =>
    simp only [memStr, List.mem_cons]
    by_cases h : c = k
    · simp [h]
    · simp only [if_neg h, ih]
      constructor
      · exact Or.inr
      · rintro (h' | h')
        · exact absurd h'.symm h
        · exact h'

theorem pyGetOr_caseId (r : Rec) : pyGetOr r "case_id" = (caseId r).getD "" := by
  unfold pyGetOr caseId
  rcases h : getVal r "case_id" with _ | (_ | s) <;> simp [h]

theorem rowGet_normalizeRec (r : Rec) (k : String) (hk : k ∈ FIELDS) :
    rowGet (normalizeRec r) k = pyGetOr r k := by
  have : ∀ (ks : List String), k ∈ ks →
      getStr (ks.map (fun k' => (k', pyGetOr r k'))) k "" = pyGetOr r k := by
    intro ks hmem
    induction ks with
    | nil => simp at hmem
    | cons a rest ih =>
      rcases List.mem_cons.mp hmem with h | h
      · simp [getStr, h]
      · by_cases ha : a = k
        · simp [getStr, ha]
        · simp [getStr, ha, ih h]
  exact this FIELDS hk

theorem caseId_mem_FIELDS : "case_id" ∈ FIELDS := by decide

theorem openDate_mem_FIELDS : "open_date" ∈ FIELDS := by decide

theorem rowGet_normalizeRec_caseId (r : Rec) :
    rowGet (normalizeRec r) "case_id" = (caseId r).getD "" := by
  rw [rowGet_normalizeRec r "case_id" caseId_mem_FIELDS, pyGetOr_caseId]

theorem new_by_id_eq_some {F : List Rec} {ids : List String} {cid : String} {fr : Rec}
    (h : new_by_id F ids cid = some fr) :
    caseId fr = some cid ∧ fr ∈ F ∧ memStr ids cid = true ∧
      F.reverse.find? (fun r => decide (caseId r = some cid)) = some fr := by
  unfold new_by_id at h
  split at h
  · have hp := List.find?_some h
    simp only [decide_eq_true_eq] at hp
    refine ⟨hp, ?_, by assumption, h⟩
    exact List.mem_reverse.mp (List.mem_of_find?_eq_some h)
  · exact absurd h (by simp)

theorem no_updates_new_by_id {F : List Rec} {ids : List String}
    (h : no_updates F ids = true) (cid : String) : new_by_id F ids cid = none := by
  unfold new_by_id
  split
  · rename_i hmem
    rw [List.find?_eq_none]
    intro r hr hp
    have hcid : caseId r = some cid := of_decide_eq_true hp
    have := (List.all_eq_true.mp h) r (List.mem_reverse.mp hr)
    rw [hcid] at this
    simp [inIds, hmem] at this
  · rfl

theorem update_eq_map (S : List Row) (F : List Rec) (ids : List String) :
    update_existing_rows S F ids = S.map (updFn F ids) := by
  unfold update_existing_rows
  split
  · rename_i h
    have : ∀ row ∈ S, updFn F ids row = row := by
      intro row _
      unfold updFn
      rw [no_updates_new_by_id h]
    rw [List.map_congr_left this, List.map_id']
  · rfl

theorem updFn_key (F : List Rec) (ids : List String) (row : Row) :
    rowGet (updFn F ids row) "case_id" = rowGet row "case_id" := by
  unfold updFn
  rcases h : new_by_id F ids (rowGet row "case_id") with _ | fresh
  · rfl
  · obtain ⟨hc, -, -, -⟩ := new_by_id_eq_some h
    rw [rowGet_normalizeRec_caseId, hc]
    rfl

theorem pre_left_eq (S : List Row) (F : List Rec) (ids : List String) :
    (if S.isEmpty then S else update_existing_rows S F ids) = S.map (updFn F ids) := by
  split
  · rename_i h
    rw [List.isEmpty_iff.mp h]
    rfl
  · exact update_eq_map S F ids

theorem existing_ids_update (S : List Row) (F : List Rec) (ids : List String) :
    existing_ids (S.map (updFn F ids)) = existing_ids S := by
  unfold existing_ids
  rw [List.map_map]
  exact List.map_congr_left (fun row _ => updFn_key F ids row)

theorem existing_ids_append (a b : List Row) :
    existing_ids (a ++ b) = existing_ids a ++ existing_ids b :=
  List.map_append _ a b

theorem existing_ids_pre_sort (S : List Row) (F : List Rec) (ids : List String) :
    existing_ids (pre_sort_rows S F ids)
      = existing_ids S ++ (truly_new F ids).map (fun r => (caseId r).getD "") := by
  unfold pre_sort_rows
  rw [pre_left_eq, existing_ids_append]
  congr 1
  · exact existing_ids_update S F ids
  · unfold existing_ids
    rw [List.map_map]
    exact List.map_congr_left (fun r _ => rowGet_normalizeRec_caseId r)

/-! ### The sort comparison is reflexive, transitive and total -/

theorem lexLe_refl (l : List Char) : lexLe l l = true := by
  induction l with
  | nil => rfl
  | cons a as ih => simp [lexLe, ih]

theorem lexLe_trans : ∀ (a b c : List Char),
    lexLe a b = true → lexLe b c = true → lexLe a c = true
  | [], _, _, _, _ => rfl
  | _ :: _, [], _, h1, _ => by simp [lexLe] at h1
  | _ :: _, _ :: _, [], _, h2 => by simp [lexLe] at h2
  | x :: xs, y :: ys, z :: zs, h1, h2 => by
    simp only [lexLe, Bool.or_eq_true, Bool.and_eq_true, decide_eq_true_eq] at h1 h2 ⊢
    rcases h1 with h1 | ⟨h1e, h1r⟩
    · rcases h2 with h2 | ⟨h2e, _⟩
      · exact Or.inl (by omega)
      · exact Or.inl (by omega)
    · rcases h2 with h2 | ⟨h2e, h2r⟩
      · exact Or.inl (by omega)
      · exact Or.inr ⟨by omega, lexLe_trans xs ys zs h1r h2r⟩

theorem lexLe_total : ∀ (a b : List Char), (lexLe a b || lexLe b a) = true
  | [], _ => by simp [lexLe]
  | _ :: _, [] => by simp [lexLe]
  | x :: xs, y :: ys => by
    simp only [lexLe, Bool.or_eq_true, Bool.and_eq_true, decide_eq_true_eq]
    rcases Nat.lt_trichotomy x.toNat y.toNat with h | h | h
    · exact Or.inl (Or.inl h)
    · have := lexLe_total xs ys
      simp only [Bool.or_eq_true] at this
      rcases this with ht | ht
      · exact Or.inl (Or.inr ⟨h, ht⟩)
      · exact Or.inr (Or.inr ⟨h.symm, ht⟩)
    · exact Or.inr (Or.inl h)

theorem lexLe_nil_right {l : List Char} (h : lexLe l [] = true) : l = [] := by
  cases l with
  | nil => rfl
  | cons a as => simp [lexLe] at h

theorem strLe_empty {s : String} (h : strLe s "" = true) : s = "" := by
  unfold strLe at h
  have : s.data = ([] : List Char) := lexLe_nil_right h
  cases s
  simp at this
  simp [this]

theorem rowLe_trans (a b c : Row) (h1 : rowLe a b) (h2 : rowLe b c) : rowLe a c :=
  lexLe_trans _ _ _ h1 h2

theorem rowLe_total (a b : Row) : (rowLe a b || rowLe b a) = true :=
  lexLe_total _ _

theorem rowLe_refl (a : Row) : rowLe a a = true := lexLe_refl _

theorem rowLe_of_sortKey_eq {a b : Row} (h : sortKey a = sortKey b) : rowLe a b = true := by
  unfold rowLe
  rw [h]
  exact lexLe_refl _

/-! ### The full-pagination loop returns the complete dataset -/

theorem fetch_all_pages_eq (dataset : List Rec) :
    ∀ (offset : Nat), fetch_all_pages dataset offset = dataset.drop offset := by
  have hPS : PAGE_SIZE = 1000 := rfl
  have key : ∀ (n offset : Nat), dataset.length - offset ≤ n →
      fetch_all_pages dataset offset = dataset.drop offset := by
    intro n
    induction n with
    | zero =>
      intro offset h
      rw [fetch_all_pages]
      have hpage : fetch_page_records dataset offset = dataset.drop offset := by
        unfold fetch_page_records
        exact List.take_of_length_le (by rw [List.length_drop]; omega)
      rw [if_pos]
      · exact hpage
      · rw [hpage, List.length_drop]
        right
        omega
    | succ m ih =>
      intro offset h
      rw [fetch_all_pages]
      by_cases hstop : (fetch_page_records dataset offset).length < PAGE_SIZE
          ∨ dataset.length ≤ offset + (fetch_page_records dataset offset).length
      · rw [if_pos hstop]
        simp only [fetch_page_records, List.length_take, List.length_drop] at hstop
        unfold fetch_page_records
        apply List.take_of_length_le
        rw [List.length_drop]
        rcases hstop with hs | hs <;> omega
      · rw [if_neg hstop]
        push_neg at hstop
        obtain ⟨hfull, hmore⟩ := hstop
        simp only [fetch_page_records, List.length_take, List.length_drop] at hfull hmore
        have hrec := ih (offset + PAGE_SIZE) (by omega)
        rw [hrec]
        unfold fetch_page_records
        rw [← List.drop_drop, List.take_append_drop]
  intro offset
  exact key (dataset.length - offset) offset (Nat.le_refl _)

/-! ### Concrete sample data used by witnesses and counterexamples -/

/-- A sample snapshot row with identity key `A`. -/
def rowA : Row :=
  [("case_id", "A"), ("open_date", "2024-01-01"), ("case_status", "Open")]

/-- A sample fetched record with identity key `A` and a changed status. -/
def recA : Rec :=
  [("case_id", some "A"), ("open_date", some "2024-01-01"), ("case_status", some "Closed")]

/-! ### Claim theorems -/

/-- C1 (no-deletion): every identity key that occurs in some row of the
existing snapshot `S` occurs in some row of the reconciliation output
`reconcile S F (existing_ids S)`, for every fresh fetch `F` — whether or not
the key occurs in `F`. -/
theorem no_deletion (S : List Row) (F : List Rec) (k : String)
    (h : k ∈ existing_ids S) :
    ∃ row ∈ reconcile S F (existing_ids S), rowGet row "case_id" = k := by
  have hperm : List.Perm (reconcile S F (existing_ids S)) (pre_sort_rows S F (existing_ids S)) :=
    List.mergeSort_perm _ _
  have hpre : k ∈ existing_ids (pre_sort_rows S F (existing_ids S)) := by
    rw [existing_ids_pre_sort]
    exact List.mem_append_left _ h
  have hout : k ∈ existing_ids (reconcile S F (existing_ids S)) := by
    unfold existing_ids at hpre ⊢
    exact ((hperm.map (fun row => rowGet row "case_id")).mem_iff).mpr hpre
  obtain ⟨row, hrow, hkey⟩ := List.mem_map.mp hout
  exact ⟨row, hrow, hkey⟩

/-- Witness for C1 at a concrete input: snapshot `[rowA]`, empty fetch. -/
theorem no_deletion_witness :
    "A" ∈ existing_ids [rowA]
    ∧ ∃ row ∈ reconcile [rowA] [] (existing_ids [rowA]), rowGet row "case_id" = "A" :=
  ⟨by decide, no_deletion [rowA] [] "A" (by decide)⟩

/-- C6 (fatal-empty): with an empty existing snapshot and an empty fresh
fetch, `main` exits with status 1 after printing a diagnostic to stderr, and
neither the snapshot CSV nor the metadata file is written. -/
theorem fatal_empty_run :
    (mainRun [] []).exitCode = 1 ∧ (mainRun [] []).errMessage = true
    ∧ (mainRun [] []).wroteCsv = false ∧ (mainRun [] []).wroteMeta = false := by
  decide

/-- C7 (incremental-fallback): with a watermark present, if the single
filtered SQL query fails — transport error (`none`) or a response whose
success flag is false — `fetch_records_after` does not abort: it runs the
full pagination fetch and returns the complete unfiltered dataset. -/
theorem incremental_fallback (d : String) (sql_response : Option (Bool × List Rec))
    (dataset : List Rec) (h : ∀ records, sql_response ≠ some (true, records)) :
    fetch_records_after (some d) sql_response dataset = dataset := by
  rcases sql_response with _ | ⟨b, records⟩
  · show fetch_all_pages dataset 0 = dataset
    rw [fetch_all_pages_eq, List.drop_zero]
  · cases b
    · show fetch_all_pages dataset 0 = dataset
      rw [fetch_all_pages_eq, List.drop_zero]
    · exact absurd rfl (h records)

/-- Witness for C7 at a concrete input: transport error on the SQL query. -/
theorem incremental_fallback_witness :
    (∀ records, (none : Option (Bool × List Rec)) ≠ some (true, records))
    ∧ fetch_records_after (some "2024-01-01") none [recA] = [recA] :=
  ⟨by simp, incremental_fallback "2024-01-01" none [recA] (by simp)⟩

/-- Counterexample to C8: the run with a non-empty snapshot and an empty
fresh fetch succeeds (exit 0) but does not rewrite the snapshot CSV (it
returns early after writing only the metadata), contradicting the claim that
every successful run rewrites the snapshot file. -/
theorem always_rewrite_counterexample :
    (mainRun [rowA] []).exitCode = 0 ∧ (mainRun [rowA] []).wroteMeta = true
    ∧ (mainRun [rowA] []).wroteCsv = false := by
  decide

/-- C8 amended: on every successful run the metadata file is written, and the
snapshot CSV is rewritten exactly when the fresh fetch is non-empty; when the
fresh fetch is empty (and the existing rows are not) the run returns early
after writing only the metadata. -/
theorem write_behavior (S : List Row) (F : List Rec) (h : ¬(F = [] ∧ S = [])) :
    (mainRun S F).exitCode = 0 ∧ (mainRun S F).wroteMeta = true
    ∧ (mainRun S F).wroteCsv = !F.isEmpty := by
  unfold mainRun
  by_cases hF : F.isEmpty
  · have hS : S.isEmpty = false := by
      cases hSE : S.isEmpty
      · rfl
      · exact absurd ⟨List.isEmpty_iff.mp hF, List.isEmpty_iff.mp hSE⟩ h
    rw [if_neg (by simp [hF, hS]), if_pos hF]
    simp [hF]
  · have hF' : F.isEmpty = false := Bool.of_not_eq_true hF
    rw [if_neg (by simp [hF']), if_neg (by simp [hF'])]
    simp [hF']

/-- Witness for C8 amended at a concrete input: non-empty snapshot, empty
fetch — metadata written, CSV not rewritten. -/
theorem write_behavior_witness :
    ¬(([] : List Rec) = [] ∧ [rowA] = [])
    ∧ ((mainRun [rowA] []).exitCode = 0 ∧ (mainRun [rowA] []).wroteMeta = true
        ∧ (mainRun [rowA] []).wroteCsv = !(List.isEmpty ([] : List Rec))) :=
  ⟨by simp, write_behavior [rowA] [] (by simp)⟩

/-- A snapshot row whose identity key is the empty string. -/
def rowEmptyKey : Row := [("case_id", ""), ("case_topic", "old")]

/-- A fetched record with no `case_id` field at all (its Python identity key
`r.get("case_id", "")` is the empty string). -/
def recNoKey : Rec := [("case_topic", some "new")]

/-- A second snapshot row with identity key `A`. -/
def rowA2 : Row := [("case_id", "A"), ("open_date", "2024-02-02")]

/-- A second fetched record with identity key `A`. -/
def recA2 : Rec := [("case_id", some "A"), ("case_status", some "Reopened")]

/-- A fetched record with identity key `B`. -/
def recB : Rec := [("case_id", some "B"), ("open_date", some "2024-03-03")]

/-- Counterexample to C9: when the prior snapshot contains a row whose
identity key is empty, a fresh record with a missing identity key is NOT
classified as appended: `truly_new` excludes it, the existing empty-key row
is updated (replaced by the normalized fresh record), and the output has a
single row not containing the original row — contradicting the claim that
such a record is always appended and never used to update an existing
row. -/
theorem empty_key_counterexample :
    truly_new [recNoKey] (existing_ids [rowEmptyKey]) = []
    ∧ reconcile [rowEmptyKey] [recNoKey] (existing_ids [rowEmptyKey])
        = [normalizeRec recNoKey]
    ∧ rowEmptyKey ∉ reconcile [rowEmptyKey] [recNoKey] (existing_ids [rowEmptyKey]) := by
  have h2 : reconcile [rowEmptyKey] [recNoKey] (existing_ids [rowEmptyKey])
      = [normalizeRec recNoKey] := by
    unfold reconcile
    have h1 : pre_sort_rows [rowEmptyKey] [recNoKey] (existing_ids [rowEmptyKey])
        = [normalizeRec recNoKey] := by decide
    rw [h1]
    exact List.mergeSort_of_sorted (by simp)
  refine ⟨by decide, h2, ?_⟩
  rw [h2]
  decide

/-- C9 amended: a fresh record whose identity key is empty or missing is
classified as appended exactly when no row of the prior snapshot has an
empty identity key; when some prior row has an empty key, the fresh record
is excluded from `truly_new` and is available in `new_by_id` as an update
that replaces the empty-key rows. -/
theorem empty_key_classification (S : List Row) (F : List Rec) (r : Rec)
    (hr : r ∈ F) (hk : caseId r = some "") :
    (("" ∉ existing_ids S) → (r ∈ truly_new F (existing_ids S)
        ∧ new_by_id F (existing_ids S) "" = none))
    ∧ (("" ∈ existing_ids S) → (r ∉ truly_new F (existing_ids S)
        ∧ ∃ fr, new_by_id F (existing_ids S) "" = some fr)) := by
  constructor
  · intro hnot
    have hm : memStr (existing_ids S) "" = false := by
      cases hm : memStr (existing_ids S) ""
      · rfl
      · exact absurd ((memStr_iff _ _).mp hm) hnot
    constructor
    · apply List.mem_filter.mpr
      refine ⟨hr, ?_⟩
      rw [hk]
      simp [inIds, hm]
    · unfold new_by_id
      simp [hm]
  · intro hmem
    constructor
    · intro hin
      have hbad := (List.mem_filter.mp hin).2
      rw [hk] at hbad
      simp only [inIds] at hbad
      rw [(memStr_iff _ _).mpr hmem] at hbad
      simp at hbad
    · unfold new_by_id
      rw [if_pos ((memStr_iff _ _).mpr hmem)]
      have hp : (fun x => decide (caseId x = some "")) r = true := decide_eq_true hk
      have hs : (F.reverse.find? (fun x => decide (caseId x = some ""))).isSome :=
        List.find?_isSome.mpr ⟨r, List.mem_reverse.mpr hr, hp⟩
      exact Option.isSome_iff_exists.mp hs

/-- Witness for C9 amended at a concrete input: snapshot with key `A` only,
fetch containing a record with a missing identity key. -/
theorem empty_key_classification_witness :
    (recNoKey ∈ [recNoKey] ∧ caseId recNoKey = some "")
    ∧ ((("" ∉ existing_ids [rowA]) → (recNoKey ∈ truly_new [recNoKey] (existing_ids [rowA])
        ∧ new_by_id [recNoKey] (existing_ids [rowA]) "" = none))
      ∧ (("" ∈ existing_ids [rowA]) → (recNoKey ∉ truly_new [recNoKey] (existing_ids [rowA])
        ∧ ∃ fr, new_by_id [recNoKey] (existing_ids [rowA]) "" = some fr))) :=
  ⟨⟨by decide, by decide⟩,
    empty_key_classification [rowA] [recNoKey] recNoKey (by decide) (by decide)⟩

/-- C10 (last-wins on duplicates): write the fresh fetch as
`F₁ ++ fr :: F₂` where `fr` has identity key `k` and no record after `fr`
has key `k` (so `fr` is the last fetched record with that key).  If `k`
occurs among the snapshot's identity keys, then every snapshot row whose
identity key is `k` — at any position `i` — is replaced in
`update_existing_rows` by `normalizeRec fr`: later occurrences overwrite
earlier ones in `new_by_id`, and all matching rows receive the same last
record. -/
theorem last_wins (S : List Row) (F₁ F₂ : List Rec) (fr : Rec) (k : String) (i : Nat)
    (hfrk : caseId fr = some k)
    (hafter : ∀ r ∈ F₂, caseId r ≠ some k)
    (hmem : k ∈ existing_ids S)
    (hi : i < S.length)
    (hki : rowGet (S.get ⟨i, hi⟩) "case_id" = k)
    (hi' : i < (update_existing_rows S (F₁ ++ fr :: F₂) (existing_ids S)).length) :
    (update_existing_rows S (F₁ ++ fr :: F₂) (existing_ids S)).get ⟨i, hi'⟩
      = normalizeRec fr := by
  have hmap := update_eq_map S (F₁ ++ fr :: F₂) (existing_ids S)
  have hget : (update_existing_rows S (F₁ ++ fr :: F₂) (existing_ids S)).get ⟨i, hi'⟩
      = updFn (F₁ ++ fr :: F₂) (existing_ids S) (S.get ⟨i, hi⟩) := by
    simp only [List.get_eq_getElem, hmap, List.getElem_map]
  rw [hget]
  unfold updFn
  rw [hki]
  have hfind : new_by_id (F₁ ++ fr :: F₂) (existing_ids S) k = some fr := by
    unfold new_by_id
    rw [if_pos ((memStr_iff _ _).mpr hmem)]
    rw [List.reverse_append, List.reverse_cons, List.find?_append, List.find?_append]
    have h2 : F₂.reverse.find? (fun r => decide (caseId r = some k)) = none := by
      rw [List.find?_eq_none]
      intro x hx
      simp only [decide_eq_true_eq]
      exact hafter x (List.mem_reverse.mp hx)
    have h1 : [fr].find? (fun r => decide (caseId r = some k)) = some fr :=
      List.find?_cons_of_pos _ (by simp [hfrk])
    rw [h2, h1]
    rfl
  rw [hfind]

/-- Witness for C10 at a concrete input: two snapshot rows with key `A`, a
fetch containing two records with key `A` (the later one wins) followed by a
record with key `B`. -/
theorem last_wins_witness :
    caseId recA2 = some "A"
    ∧ (update_existing_rows [rowA, rowA2] ([recA] ++ recA2 :: [recB])
        (existing_ids [rowA, rowA2])).get ⟨0, by decide⟩ = normalizeRec recA2 :=
  ⟨by decide,
    last_wins [rowA, rowA2] [recA] [recB] recA2 "A" 0 (by decide) (by decide)
      (by decide) (by decide) (by decide) (by decide)⟩

/-- A fetched record with identity key `Z`, first occurrence. -/
def recZ1 : Rec := [("case_id", some "Z"), ("case_topic", some "first")]

/-- A fetched record with identity key `Z`, second occurrence. -/
def recZ2 : Rec := [("case_id", some "Z"), ("case_topic", some "second")]

/-- Counterexample to C3: with an empty snapshot and a fetch containing two
records that share the fresh non-empty key `Z`, the reconciliation output
contains two rows with key `Z`, not exactly one — `truly_new` is a plain
filter and performs no per-key deduplication. -/
theorem append_unique_counterexample :
    "Z" ≠ ""
    ∧ "Z" ∉ existing_ids ([] : List Row)
    ∧ (∃ r ∈ [recZ1, recZ2], caseId r = some "Z")
    ∧ ((reconcile [] [recZ1, recZ2] (existing_ids [])).filter
        (fun row => decide (rowGet row "case_id" = "Z"))).length = 2 := by
  have h2 : reconcile [] [recZ1, recZ2] (existing_ids [])
      = [normalizeRec recZ1, normalizeRec recZ2] := by
    unfold reconcile
    have h1 : pre_sort_rows [] [recZ1, recZ2] (existing_ids [])
        = [normalizeRec recZ1, normalizeRec recZ2] := by decide
    rw [h1]
    apply List.mergeSort_of_sorted
    decide
  refine ⟨by decide, by decide, ⟨recZ1, by decide, by decide⟩, ?_⟩
  rw [h2]
  decide

/-- C3 amended: for a non-empty key `k` absent from the snapshot's identity
keys, the output rows whose identity key is `k` are, up to the stable
reordering done by the date sort, exactly the normalizations of the fetched
records whose identity key is `k` — one output row per occurrence in the
fetch (so exactly one row precisely when the fetch contains the key exactly
once, but duplicated keys yield duplicated rows). -/
theorem append_per_occurrence (S : List Row) (F : List Rec) (k : String)
    (hk : k ≠ "") (hnot : k ∉ existing_ids S) :
    List.Perm
      ((reconcile S F (existing_ids S)).filter
        (fun row => decide (rowGet row "case_id" = k)))
      ((F.filter (fun r => decide (caseId r = some k))).map normalizeRec) := by
  have hperm := (List.mergeSort_perm (pre_sort_rows S F (existing_ids S)) rowLe).filter
    (fun row => decide (rowGet row "case_id" = k))
  refine hperm.trans ?_
  have heq : (pre_sort_rows S F (existing_ids S)).filter
        (fun row => decide (rowGet row "case_id" = k))
      = (F.filter (fun r => decide (caseId r = some k))).map normalizeRec := by
    unfold pre_sort_rows
    rw [pre_left_eq, List.filter_append]
    have hleft : ((S.map (updFn F (existing_ids S))).filter
        (fun row => decide (rowGet row "case_id" = k))) = [] := by
      rw [List.filter_eq_nil_iff]
      intro row hrow
      obtain ⟨row₀, hrow₀, rfl⟩ := List.mem_map.mp hrow
      simp only [decide_eq_true_eq]
      rw [updFn_key]
      intro hkey
      exact hnot (hkey ▸ List.mem_map_of_mem (fun row => rowGet row "case_id") hrow₀)
    rw [hleft, List.nil_append, List.filter_map]
    congr 1
    unfold truly_new
    rw [List.filter_filter]
    apply List.filter_congr
    intro r _
    show (decide (rowGet (normalizeRec r) "case_id" = k)
        && !(inIds (existing_ids S) (caseId r))) = decide (caseId r = some k)
    rw [rowGet_normalizeRec_caseId]
    rcases hc : caseId r with _ | k'
    · simp [hc, inIds, Ne.symm hk]
    · by_cases hk' : k' = k
      · subst hk'
        have hm : memStr (existing_ids S) k' = false := by
          cases hm : memStr (existing_ids S) k'
          · rfl
          · exact absurd ((memStr_iff _ _).mp hm) hnot
        simp [hc, inIds, hm]
      · simp [hc, inIds, hk', Ne.symm hk']
  rw [heq]

/-- Witness for C3 amended at a concrete input: key `B` occurs exactly once
in the fetch and not at all in the snapshot. -/
theorem append_per_occurrence_witness :
    ("B" ≠ "" ∧ "B" ∉ existing_ids [rowA])
    ∧ List.Perm
      ((reconcile [rowA] [recB] (existing_ids [rowA])).filter
        (fun row => decide (rowGet row "case_id" = "B")))
      (([recB].filter (fun r => decide (caseId r = some "B"))).map normalizeRec) :=
  ⟨⟨by decide, by decide⟩, append_per_occurrence [rowA] [recB] "B" (by decide) (by decide)⟩

/-- Membership in the unsorted merge result: a row is either the image of a
snapshot row under the update step, or the normalization of a truly-new
fetched record. -/
theorem mem_pre_sort (S : List Row) (F : List Rec) (ids : List String) (row : Row) :
    row ∈ pre_sort_rows S F ids
      ↔ (∃ row₀, row₀ ∈ S ∧ row = updFn F ids row₀)
        ∨ (∃ r, r ∈ F ∧ inIds ids (caseId r) = false ∧ row = normalizeRec r) := by
  unfold pre_sort_rows truly_new
  rw [pre_left_eq, List.mem_append, List.mem_map, List.mem_map]
  constructor
  · rintro (⟨row₀, h0, hEq⟩ | ⟨r, hr, hEq⟩)
    · exact Or.inl ⟨row₀, h0, hEq.symm⟩
    · obtain ⟨hrF, hfil⟩ := List.mem_filter.mp hr
      rw [Bool.not_eq_true'] at hfil
      exact Or.inr ⟨r, hrF, hfil, hEq.symm⟩
  · rintro (⟨row₀, h0, hEq⟩ | ⟨r, hrF, hfil, hEq⟩)
    · exact Or.inl ⟨row₀, h0, hEq.symm⟩
    · refine Or.inr ⟨r, List.mem_filter.mpr ⟨hrF, ?_⟩, hEq.symm⟩
      rw [Bool.not_eq_true']
      exact hfil

/-- C2 (freshness-wins): for a non-empty identity key `k` present among the
snapshot's identity keys and carried by some fetched record — `new_by_id`
holds the fresh record `fr` for `k`, i.e. the last fetched record with that
key — every reconciliation output row whose identity key is `k` equals the
full normalization of `fr` (every field from the fresh record, absent values
coerced to the empty string), and such an output row exists; in particular
no output row with key `k` is the prior snapshot row. -/
theorem freshness_wins (S : List Row) (F : List Rec) (k : String) (fr : Rec)
    (hk : k ≠ "") (hmem : k ∈ existing_ids S)
    (hfr : new_by_id F (existing_ids S) k = some fr) :
    (∀ row ∈ reconcile S F (existing_ids S),
        rowGet row "case_id" = k → row = normalizeRec fr)
    ∧ ∃ row ∈ reconcile S F (existing_ids S), rowGet row "case_id" = k := by
  constructor
  · intro row hrow hkey
    have hpre := List.mem_mergeSort.mp hrow
    rcases (mem_pre_sort S F (existing_ids S) row).mp hpre with
      ⟨row₀, h0, hEq⟩ | ⟨r, hrF, hfil, hEq⟩
    · subst hEq
      have hkey₀ : rowGet row₀ "case_id" = k := by
        rw [← updFn_key F (existing_ids S) row₀]
        exact hkey
      simp only [updFn, hkey₀, hfr]
    · subst hEq
      rw [rowGet_normalizeRec_caseId] at hkey
      rcases hc : caseId r with _ | k'
      · rw [hc] at hkey
        simp only [Option.getD_none] at hkey
        exact absurd hkey.symm hk
      · rw [hc] at hkey
        simp only [Option.getD_some] at hkey
        subst hkey
        rw [hc] at hfil
        simp only [inIds] at hfil
        rw [(memStr_iff _ _).mpr hmem] at hfil
        simp at hfil
  · have hmem' := hmem
    unfold existing_ids at hmem'
    obtain ⟨row₀, h0, hkey₀⟩ := List.mem_map.mp hmem'
    refine ⟨updFn F (existing_ids S) row₀, ?_, ?_⟩
    · apply List.mem_mergeSort.mpr
      exact (mem_pre_sort S F (existing_ids S) _).mpr (Or.inl ⟨row₀, h0, rfl⟩)
    · rw [updFn_key]
      exact hkey₀

/-- Witness for C2 at a concrete input: key `A` present in both snapshot and
fetch, with a changed status in the fetch. -/
theorem freshness_wins_witness :
    ("A" ≠ "" ∧ "A" ∈ existing_ids [rowA]
      ∧ new_by_id [recA] (existing_ids [rowA]) "A" = some recA)
    ∧ ((∀ row ∈ reconcile [rowA] [recA] (existing_ids [rowA]),
        rowGet row "case_id" = "A" → row = normalizeRec recA)
      ∧ ∃ row ∈ reconcile [rowA] [recA] (existing_ids [rowA]),
          rowGet row "case_id" = "A") :=
  ⟨⟨by decide, by decide, by decide⟩,
    freshness_wins [rowA] [recA] "A" recA (by decide) (by decide) (by decide)⟩

/-- C4 (ordering): the reconciliation output (produced on the path where
fresh records exist) is non-decreasing by `open_date` under Python's string
comparison; rows whose `open_date` is empty or missing sort first (the empty
string is the minimum of the order); and the sort is stable on the sort key
only — for every key value `c`, the subsequence of rows whose `open_date`
is `c` is exactly the corresponding subsequence of the pre-sort merge
result, in its original order. -/
theorem output_sorted_stable (S : List Row) (F : List Rec) :
    (reconcile S F (existing_ids S)).Pairwise (fun a b => rowLe a b = true)
    ∧ (reconcile S F (existing_ids S)).Pairwise
        (fun a b => sortKey b = "" → sortKey a = "")
    ∧ ∀ c : String,
        (reconcile S F (existing_ids S)).filter (fun row => decide (sortKey row = c))
          = (pre_sort_rows S F (existing_ids S)).filter
              (fun row => decide (sortKey row = c)) := by
  have h1 : (reconcile S F (existing_ids S)).Pairwise (fun a b => rowLe a b = true) :=
    List.sorted_mergeSort rowLe_trans rowLe_total (pre_sort_rows S F (existing_ids S))
  have himp : ∀ {a b : Row}, rowLe a b = true → (sortKey b = "" → sortKey a = "") := by
    intro a b hab hb
    apply strLe_empty
    unfold rowLe at hab
    rw [hb] at hab
    exact hab
  refine ⟨h1, h1.imp himp, ?_⟩
  intro c
  have hsubpair : ((pre_sort_rows S F (existing_ids S)).filter
      (fun row => decide (sortKey row = c))).Pairwise (fun a b => rowLe a b = true) := by
    apply List.pairwise_of_forall_mem_list
    intro a ha b hb
    have ha' : sortKey a = c := of_decide_eq_true (List.mem_filter.mp ha).2
    have hb' : sortKey b = c := of_decide_eq_true (List.mem_filter.mp hb).2
    exact rowLe_of_sortKey_eq (ha'.trans hb'.symm)
  have hsub : ((pre_sort_rows S F (existing_ids S)).filter
        (fun row => decide (sortKey row = c))).Sublist
      (reconcile S F (existing_ids S)) :=
    List.sublist_mergeSort rowLe_trans rowLe_total hsubpair (List.filter_sublist _)
  have hfsub := hsub.filter (fun row => decide (sortKey row = c))
  rw [List.filter_eq_self.mpr
    (fun a ha => (List.mem_filter.mp ha).2)] at hfsub
  have hlen : ((reconcile S F (existing_ids S)).filter
        (fun row => decide (sortKey row = c))).length
      = ((pre_sort_rows S F (existing_ids S)).filter
        (fun row => decide (sortKey row = c))).length :=
    ((List.mergeSort_perm (pre_sort_rows S F (existing_ids S)) rowLe).filter
      (fun row => decide (sortKey row = c))).length_eq
  exact (hfsub.eq_of_length hlen.symm).symm

/-- A fetched record whose `case_id` is JSON `null`. -/
def recNull : Rec := [("case_id", none), ("case_topic", some "x")]

/-- Counterexample to C5: a fetched record whose `case_id` is JSON `null` is
appended on every run — its key (`None`) is never in the id set — so
reconciling the result with the same fetch again appends a second copy:
the second reconciliation does not yield the same row sequence. -/
theorem idempotence_counterexample :
    reconcile (reconcile [] [recNull] (existing_ids []))
        [recNull] (existing_ids (reconcile [] [recNull] (existing_ids [])))
      ≠ reconcile [] [recNull] (existing_ids []) := by
  have h1 : reconcile [] [recNull] (existing_ids []) = [normalizeRec recNull] := by
    unfold reconcile
    have hp : pre_sort_rows [] [recNull] (existing_ids []) = [normalizeRec recNull] := by
      decide
    rw [hp]
    exact List.mergeSort_of_sorted (by simp)
  rw [h1]
  have h2 : reconcile [normalizeRec recNull] [recNull] (existing_ids [normalizeRec recNull])
      = [normalizeRec recNull, normalizeRec recNull] := by
    unfold reconcile
    have hp : pre_sort_rows [normalizeRec recNull] [recNull]
        (existing_ids [normalizeRec recNull])
        = [normalizeRec recNull, normalizeRec recNull] := by decide
    rw [hp]
    apply List.mergeSort_of_sorted
    decide
  rw [h2]
  decide

/-- C5 amended (idempotence): when every fetched record carries a non-null
identity key and no two fetched records share a key, reconciling the first
reconciliation's output (with its derived identity-key set) against the same
fetch returns that output unchanged, as the same list. -/
theorem reconcile_idempotent (S : List Row) (F : List Rec)
    (hkeys : ∀ r ∈ F, (caseId r).isSome)
    (hnodup : (F.map caseId).Nodup) :
    reconcile (reconcile S F (existing_ids S)) F
        (existing_ids (reconcile S F (existing_ids S)))
      = reconcile S F (existing_ids S) := by
  have hperm : List.Perm (reconcile S F (existing_ids S))
      (pre_sort_rows S F (existing_ids S)) := List.mergeSort_perm _ _
  -- Step A: every fetched key is among the output's identity keys.
  have stepA : ∀ r ∈ F, ∀ k, caseId r = some k →
      k ∈ existing_ids (reconcile S F (existing_ids S)) := by
    intro r hr k hck
    have hpre : k ∈ existing_ids (pre_sort_rows S F (existing_ids S)) := by
      rw [existing_ids_pre_sort]
      cases hm : memStr (existing_ids S) k
      · apply List.mem_append_right
        apply List.mem_map.mpr
        refine ⟨r, ?_, by rw [hck]; rfl⟩
        apply List.mem_filter.mpr
        refine ⟨hr, ?_⟩
        rw [Bool.not_eq_true']
        rw [hck]
        exact hm
      · exact List.mem_append_left _ ((memStr_iff _ _).mp hm)
    unfold existing_ids at hpre ⊢
    exact ((hperm.map (fun row => rowGet row "case_id")).mem_iff).mpr hpre
  -- Step B: the second run has no truly-new records.
  have stepB : truly_new F (existing_ids (reconcile S F (existing_ids S))) = [] := by
    unfold truly_new
    rw [List.filter_eq_nil_iff]
    intro r hr
    obtain ⟨k, hck⟩ := Option.isSome_iff_exists.mp (hkeys r hr)
    have hm : memStr (existing_ids (reconcile S F (existing_ids S))) k = true :=
      (memStr_iff _ _).mpr (stepA r hr k hck)
    simp [hck, inIds, hm]
  -- Step C: the second run's update step fixes every output row.
  have stepC : ∀ row ∈ reconcile S F (existing_ids S),
      updFn F (existing_ids (reconcile S F (existing_ids S))) row = row := by
    intro row hrow
    rcases hnb : new_by_id F (existing_ids (reconcile S F (existing_ids S)))
        (rowGet row "case_id") with _ | fresh
    · simp only [updFn, hnb]
    · simp only [updFn, hnb]
      obtain ⟨hcfresh, hfreshF, -, hfind⟩ := new_by_id_eq_some hnb
      have hpre := List.mem_mergeSort.mp hrow
      rcases (mem_pre_sort S F (existing_ids S) row).mp hpre with
        ⟨row₀, h0, hEq⟩ | ⟨r, hrF, hfil, hEq⟩
      · -- row comes from the first run's update step
        have hk0 : rowGet row₀ "case_id" = rowGet row "case_id" := by
          rw [hEq, updFn_key]
        rcases hnb0 : new_by_id F (existing_ids S) (rowGet row₀ "case_id") with _ | f₀
        · -- impossible: the find over F succeeds in the second run,
          -- and row₀'s key belongs to the first run's id set
          have hkmem : memStr (existing_ids S) (rowGet row₀ "case_id") = true := by
            apply (memStr_iff _ _).mpr
            exact List.mem_map_of_mem (fun row => rowGet row "case_id") h0
          unfold new_by_id at hnb0
          rw [if_pos hkmem, hk0] at hnb0
          rw [hnb0] at hfind
          exact Option.noConfusion hfind
        · obtain ⟨-, -, -, hfind₀⟩ := new_by_id_eq_some hnb0
          rw [hk0] at hfind₀
          have hsame : f₀ = fresh := Option.some.inj (hfind₀.symm.trans hfind)
          rw [hEq]
          simp only [updFn, hnb0, hsame]
      · -- row is the normalization of a truly-new record
        obtain ⟨k', hck'⟩ := Option.isSome_iff_exists.mp (hkeys r hrF)
        have hkeyrow : rowGet row "case_id" = k' := by
          rw [hEq, rowGet_normalizeRec_caseId, hck']
          rfl
        have hsame : r = fresh := by
          apply List.inj_on_of_nodup_map hnodup hrF hfreshF
          rw [hck', hcfresh, hkeyrow]
        rw [hEq, hsame]
  -- Step D: the update step is the identity on the output.
  have stepD : update_existing_rows (reconcile S F (existing_ids S)) F
      (existing_ids (reconcile S F (existing_ids S))) = reconcile S F (existing_ids S) := by
    rw [update_eq_map, List.map_congr_left stepC, List.map_id']
  -- Step E: the second run's unsorted merge result is the output itself.
  have stepE : pre_sort_rows (reconcile S F (existing_ids S)) F
      (existing_ids (reconcile S F (existing_ids S))) = reconcile S F (existing_ids S) := by
    unfold pre_sort_rows
    rw [stepB]
    simp only [List.map_nil, List.append_nil]
    split
    · rename_i hE
      rfl
    · exact stepD
  -- Step F: the output is sorted, so the second sort is the identity.
  have stepF : (reconcile S F (existing_ids S)).Pairwise (fun a b => rowLe a b = true) :=
    List.sorted_mergeSort rowLe_trans rowLe_total _
  show (pre_sort_rows (reconcile S F (existing_ids S)) F
      (existing_ids (reconcile S F (existing_ids S)))).mergeSort rowLe
    = reconcile S F (existing_ids S)
  rw [stepE]
  exact List.mergeSort_of_sorted stepF

/-- Witness for C5 amended at a concrete input: one existing row with key
`A`, a fetch with distinct non-null keys `A` (update) and `B` (append). -/
theorem reconcile_idempotent_witness :
    ((∀ r ∈ [recA, recB], (caseId r).isSome) ∧ ([recA, recB].map caseId).Nodup)
    ∧ reconcile (reconcile [rowA] [recA, recB] (existing_ids [rowA]))
        [recA, recB] (existing_ids (reconcile [rowA] [recA, recB] (existing_ids [rowA])))
      = reconcile [rowA] [recA, recB] (existing_ids [rowA]) :=
  ⟨⟨by decide, by decide⟩,
    reconcile_idempotent [rowA] [recA, recB] (by decide) (by decide)⟩
